import Mathlib

/-!
# Verification of the `equalfile` comparison engine

Shallow embedding of `equalfile.go` (package `equalfile`): the paired stream
comparator `compareReader` with its reconciliation loop `readPartial`, the
entry points `CompareReader` and `CompareFile`, and the hash cache `getHash`.

Modelling conventions:
* An `io.Reader` is a state `ρ` together with a read function
  `rd : ρ → Nat → (List Nat × Option Err) × ρ`: given the capacity of the
  destination slice it yields the bytes actually written and the returned
  error (`none` for Go `nil`).  The Go `n` result is the length of the
  delivered byte list (well-behaved readers).  Two concrete readers are used:
  `bytesRead` (contents delivered eagerly, `io.EOF` once drained, like
  `os.File` on a regular file or `bytes.Reader`) and `scriptRead`
  (an arbitrary prescribed sequence of read results, to model readers with
  short reads and mid-stream errors).
* Go `int64` / `int` values are modelled as `Int`; byte counts as `Nat`.
  The loop counter `readSize` can only be observed through the comparison
  `readSize > maxSize`, which fires long before any 64-bit overflow, so no
  wrap-around is modelled.
* The `for` loop of `compareReader` is embedded with explicit fuel; the
  theorems below establish the fuel that makes it total on the concrete
  readers.
* The dynamic type test `r.(*io.LimitedReader)` is passed in as the booleans
  `ok1`, `ok2`.
* `hash.Hash` is modelled as a pure function from the fed bytes to the digest
  (`Reset` is called before feeding, so the digest depends on nothing else).
-/

namespace Equalfile

/-- `const defaultMaxSize = 10000000000` -/
def defaultMaxSize : Int := 10000000000

/-- `const defaultBufSize = 20000` -/
def defaultBufSize : Nat := 20000

/-- `math.MaxInt64` -/
def maxInt64 : Int := 9223372036854775807

/-- The error values that can flow through the package: `io.EOF`, other I/O
errors (`ioOther`), `os.Open`/`Stat` failures, and the distinct error strings
produced by `equalfile.go` itself. -/
inductive Err where
  | eof
  | ioOther (code : Nat)
  | openFail (path : String)
  | negativeMaxSize
  | nonRegularFile (path : String)
  | nonPositiveMaxSize
  | insufficientBufferSize
  | bufferSizeMismatch
  | maxReadSizeReached
deriving DecidableEq, Repr

/-- The read statistics fields of `Cmp` (`readCount`, `readMin`, `readMax`,
`readSum`). -/
structure Stats where
  readCount : Int
  readMin : Int
  readMax : Int
  readSum : Int
deriving DecidableEq, Repr

/-- `type Options struct` -/
structure Options where
  debug : Bool
  forceFileRead : Bool
  maxSize : Int
deriving DecidableEq, Repr

/-- `type hashSum struct` -/
structure HashSum where
  result : List Nat
  err : Option Err
deriving DecidableEq, Repr

/-- `type Cmp struct`.  `hashType` is the (optional) hash algorithm, modelled
as a pure digest function; `buf` is the shared work buffer (only its length is
ever observable, since every compared window is fully overwritten first). -/
structure Cmp where
  opt : Options
  stats : Stats
  hashType : Option (List Nat → List Nat)
  hashMatchCompare : Bool
  hashTable : List (String × HashSum)
  buf : List Nat

/-- `func NewMultiple(buf []byte, options Options, h hash.Hash, compareOnMatch bool) *Cmp` -/
def NewMultiple (buf : List Nat) (options : Options) (h : Option (List Nat → List Nat))
    (compareOnMatch : Bool) : Cmp :=
  let c : Cmp :=
    { opt := options
      stats := ⟨0, 0, 0, 0⟩
      hashType := h
      hashMatchCompare := compareOnMatch
      hashTable := []
      buf := buf }
  if c.buf.length = 0 then { c with buf := List.replicate defaultBufSize 0 } else c

/-- `func New(buf []byte, options Options) *Cmp` -/
def New (buf : List Nat) (options : Options) : Cmp :=
  NewMultiple buf options none true

/-- `func (c *Cmp) multipleMode() bool` -/
def Cmp.multipleMode (c : Cmp) : Bool :=
  c.hashType.isSome

/-- The statistics update performed by `func (c *Cmp) read` after the
underlying `r.Read` returned `n` bytes. -/
def Cmp.updateStats (c : Cmp) (n : Nat) : Cmp :=
  if c.opt.debug then
    { c with stats :=
      { readCount := c.stats.readCount + 1
        readSum := c.stats.readSum + (n : Int)
        readMin := if (n : Int) < c.stats.readMin then (n : Int) else c.stats.readMin
        readMax := if (n : Int) > c.stats.readMax then (n : Int) else c.stats.readMax } }
  else c

/-- `func (c *Cmp) read(r io.Reader, buf []byte) (int, error)`: performs the
underlying read (delivered bytes plus error) and updates the statistics. -/
def readStep {ρ : Type} (rd : ρ → Nat → (List Nat × Option Err) × ρ) (c : Cmp) (r : ρ)
    (cap : Nat) : (List Nat × Option Err) × ρ × Cmp :=
  let res := rd r cap
  (res.1, res.2, c.updateStats res.1.1.length)

/-- `func (c *Cmp) resetDebugging()` -/
def Cmp.resetDebugging (c : Cmp) : Cmp :=
  if c.opt.debug then
    { c with stats := { readCount := 0, readMin := 2000000000, readMax := 0, readSum := 0 } }
  else c

/-- The three-way `switch err` classification used by `compareReader`:
`io.EOF` flags end of input, `nil` continues, anything else aborts. -/
def classifyErr : Option Err → Except Err Bool
  | none => .ok false
  | some Err.eof => .ok true
  | some e => .error e

/-- `func readPartial(c *Cmp, r io.Reader, buf []byte, n1, n2 int) (int, error)`.
`win` is the byte window written so far (Go: `buf[:n1]`); the reads land in
`buf[n1:n2]`.  `fuel` bounds the number of `for` iterations; `none` means the
fuel ran out. -/
def readPartial {ρ : Type} (rd : ρ → Nat → (List Nat × Option Err) × ρ) :
    Nat → Cmp → ρ → List Nat → Nat → Nat →
    Option ((Nat × List Nat × Option Err) × ρ × Cmp)
  | 0, _, _, _, _, _ => none
  | fuel + 1, c, r, win, n1, n2 =>
    if n1 < n2 then
      let step := readStep rd c r (n2 - n1)
      let n1a := n1 + step.1.1.length
      let wina := win ++ step.1.1
      match step.1.2 with
      | some e => some ((n1a, wina, some e), step.2.1, step.2.2)
      | none => readPartial rd fuel step.2.2 step.2.1 wina n1a n2
    else
      some ((n1, win, none), r, c)

/-- The `for !eof1 && !eof2` loop of `compareReader`, one fuel unit per
iteration.  State: readers, half-buffer size, `useMaxSize`, `maxSize`,
`readSize`, the two EOF flags, and the threaded `Cmp` (statistics). -/
def compareReaderLoop {ρ : Type} (rd : ρ → Nat → (List Nat × Option Err) × ρ) :
    Nat → Cmp → ρ → ρ → Nat → Bool → Int → Int → Bool → Bool →
    Option ((Bool × Option Err) × Cmp)
  | 0, _, _, _, _, _, _, _, _, _ => none
  | fuel + 1, c, r1, r2, size, useMaxSize, maxSize, readSize, eof1, eof2 =>
    if eof1 || eof2 then
      if !eof1 || !eof2 then some ((false, none), c) else some ((true, none), c)
    else
      let s1 := readStep rd c r1 size
      match classifyErr s1.1.2 with
      | .error e => some ((false, some e), s1.2.2)
      | .ok isEof1 =>
        let s2 := readStep rd s1.2.2 r2 size
        match classifyErr s2.1.2 with
        | .error e => some ((false, some e), s2.2.2)
        | .ok isEof2 =>
          let w1 := s1.1.1
          let w2 := s2.1.1
          let finish := fun (cF : Cmp) (r1F r2F : ρ) (e1 e2 : Bool)
              (n1 : Nat) (w1F : List Nat) (n2 : Nat) (w2F : List Nat) =>
            if n1 ≠ n2 then some ((false, none), cF)
            else if w1F.take n1 ≠ w2F.take n2 then some ((false, none), cF)
            else
              let readSizea := readSize + (n1 : Int)
              if useMaxSize = true ∧ readSizea > maxSize then
                some ((true, some Err.maxReadSizeReached), cF)
              else
                compareReaderLoop rd fuel cF r1F r2F size useMaxSize maxSize readSizea e1 e2
          if w1.length < w2.length then
            match readPartial rd (fuel + 1) s2.2.2 s1.2.1 w1 w1.length w2.length with
            | none => none
            | some ((n, w1a, errPart), r1a, cA) =>
              match classifyErr errPart with
              | .error e => some ((false, some e), cA)
              | .ok partEof =>
                finish cA r1a s2.2.1 (isEof1 || partEof) isEof2 n w1a w2.length w2
          else if w2.length < w1.length then
            match readPartial rd (fuel + 1) s2.2.2 s2.2.1 w2 w2.length w1.length with
            | none => none
            | some ((n, w2a, errPart), r2a, cA) =>
              match classifyErr errPart with
              | .error e => some ((false, some e), cA)
              | .ok partEof =>
                finish cA s1.2.1 r2a isEof1 (isEof2 || partEof) w1.length w1 n w2a
          else
            finish s2.2.2 s1.2.1 s2.2.1 isEof1 isEof2 w1.length w1 w2.length w2

/-- `func (c *Cmp) compareReader(r1, r2 io.Reader, maxSize int64) (bool, error)`.
`ok1`, `ok2` are the results of the `*io.LimitedReader` type assertions. -/
def compareReader {ρ : Type} (rd : ρ → Nat → (List Nat × Option Err) × ρ) (fuel : Nat)
    (c : Cmp) (r1 r2 : ρ) (ok1 ok2 : Bool) (maxSize0 : Int) :
    Option ((Bool × Option Err) × Cmp) :=
  let limited := ok1 || ok2
  let useMaxSize := if limited then false else decide (maxSize0 < maxInt64)
  let maxSize := if limited = false ∧ maxSize0 = 0 then defaultMaxSize else maxSize0
  if limited = false ∧ maxSize < 1 then some ((false, some Err.nonPositiveMaxSize), c)
  else
    let size := c.buf.length / 2
    if size < 1 then some ((false, some Err.insufficientBufferSize), c)
    else
      let buf1 := c.buf.take size
      let buf2 := (c.buf.take (2 * size)).drop size
      if buf1.length ≠ buf2.length then some ((false, some Err.bufferSizeMismatch), c)
      else compareReaderLoop rd fuel c r1 r2 size useMaxSize maxSize 0 false false

/-- `func (c *Cmp) CompareReader(r1, r2 io.Reader) (bool, error)`
(`printDebugCompareReader` only prints and is a no-op here). -/
def Cmp.CompareReader {ρ : Type} (c : Cmp) (rd : ρ → Nat → (List Nat × Option Err) × ρ)
    (fuel : Nat) (r1 r2 : ρ) (ok1 ok2 : Bool) : Option ((Bool × Option Err) × Cmp) :=
  compareReader rd fuel c.resetDebugging r1 r2 ok1 ok2 c.opt.maxSize

/-- A well-behaved byte stream (`bytes.Reader` / regular `os.File`): delivers
`min cap remaining` bytes with a `nil` error while content remains, then
`(0, io.EOF)`. -/
def bytesRead (data : List Nat) (cap : Nat) : (List Nat × Option Err) × List Nat :=
  match data with
  | [] => (([], some Err.eof), [])
  | _ => ((data.take cap, none), data.drop cap)

/-- A reader that follows a script: the i-th `Read` call delivers the i-th
prescribed byte chunk (truncated to the destination capacity) together with
the prescribed error; after the script is exhausted it reports `io.EOF`. -/
def scriptRead (s : List (List Nat × Option Err)) (cap : Nat) :
    (List Nat × Option Err) × List (List Nat × Option Err) :=
  match s with
  | [] => (([], some Err.eof), [])
  | (bs, e) :: rest => ((bs.take cap, e), rest)

/-! ## Filesystem model and the file-level entry points -/

/-- Metadata and contents of one filesystem object: its bytes, whether
`Mode().IsRegular()`, an identity for `os.SameFile` (device+inode), and an
optional read-error code the stream raises after its content instead of a
clean `io.EOF`. -/
structure FileMeta where
  content : List Nat
  regular : Bool
  fileId : Nat
  readErr : Option Nat
deriving DecidableEq, Repr

/-- The filesystem: association of paths to file objects; a missing path makes
`os.Open` fail. -/
def FS : Type := List (String × FileMeta)

/-- `os.Open`/`Stat` lookup. -/
def lookupFS : FS → String → Option FileMeta
  | [], _ => none
  | (k, v) :: t, p => if k = p then some v else lookupFS t p

/-- Lookup in the Go map `c.hashTable` (newest entry wins). -/
def lookupTable : List (String × HashSum) → String → Option HashSum
  | [], _ => none
  | (k, v) :: t, p => if k = p then some v else lookupTable t p

/-- `io.CopyN(c.hashType, f, maxSize)` on a file delivering `content` and then
`readErr` (or a clean EOF): the number of bytes copied and the returned
error. -/
def copyN (content : List Nat) (readErr : Option Nat) (m : Int) : Int × Option Err :=
  if m ≤ 0 then (0, none)
  else if m ≤ (content.length : Int) then (m, none)
  else
    ((content.length : Int),
      match readErr with
      | some k => some (Err.ioOther k)
      | none => some Err.eof)

/-- `func (c *Cmp) newHash(path string, sum []byte, e error) ([]byte, error)`
(the debug print is a no-op). -/
def Cmp.newHash (c : Cmp) (path : String) (sum : List Nat) (e : Option Err) :
    (List Nat × Option Err) × Cmp :=
  ((sum, e), { c with hashTable := (path, ⟨sum, e⟩) :: c.hashTable })

/-- `func (c *Cmp) getHash(path string, maxSize int64) ([]byte, error)`.
`hf` is the digest function of `c.hashType` (the hash is `Reset` before the
copy, so the digest is a pure function of the bytes fed to it, namely the
first `maxSize` bytes of the file). -/
def Cmp.getHash (c : Cmp) (hf : List Nat → List Nat) (fs : FS) (path : String)
    (maxSize : Int) : (List Nat × Option Err) × Cmp :=
  match lookupTable c.hashTable path with
  | some h => ((h.result, h.err), c)
  | none =>
    match lookupFS fs path with
    | none => (([], some (Err.openFail path)), c)
    | some fm =>
      let nAndErr := copyN fm.content fm.readErr maxSize
      let sum := hf (fm.content.take maxSize.toNat)
      let copyErr :=
        if nAndErr.2 = some Err.eof ∧ nAndErr.1 < maxSize then none else nAndErr.2
      c.newHash path sum copyErr

/-- `func (c *Cmp) CompareFile(path1, path2 string) (bool, error)`.  The two
opened handles are modelled as `bytesRead` streams over the file contents
(regular files); `fuel` for the byte-by-byte comparison is the bound proved
sufficient below. -/
def Cmp.CompareFile (c : Cmp) (fs : FS) (path1 path2 : String) :
    Option ((Bool × Option Err) × Cmp) :=
  if c.opt.maxSize < 0 then some ((false, some Err.negativeMaxSize), c)
  else
    match lookupFS fs path1 with
    | none => some ((false, some (Err.openFail path1)), c)
    | some info1 =>
      match lookupFS fs path2 with
      | none => some ((false, some (Err.openFail path2)), c)
      | some info2 =>
        if info1.regular = false then some ((false, some (Err.nonRegularFile path1)), c)
        else if info2.regular = false then some ((false, some (Err.nonRegularFile path2)), c)
        else if c.opt.forceFileRead = false ∧ info1.fileId = info2.fileId then
          some ((true, none), c)
        else if (info1.content.length : Int) ≠ (info2.content.length : Int) then
          some ((false, none), c)
        else
          let maxSize : Int :=
            if c.opt.maxSize = 0 then
              if (info1.content.length : Int) = 0 then 1 else (info1.content.length : Int)
            else c.opt.maxSize
          let fuel := info1.content.length + info2.content.length + 2
          let bytesCmp := fun (cB : Cmp) =>
            compareReader bytesRead fuel cB.resetDebugging info1.content info2.content
              false false maxSize
          match c.hashType with
          | none => bytesCmp c
          | some hf =>
            let g1 := c.getHash hf fs path1 maxSize
            if g1.1.2 ≠ none then some ((false, g1.1.2), g1.2)
            else
              let g2 := g1.2.getHash hf fs path2 maxSize
              if g2.1.2 ≠ none then some ((false, g2.1.2), g2.2)
              else if g1.1.1 ≠ g2.1.1 then some ((false, none), g2.2)
              else if c.hashMatchCompare = false then some ((true, none), g2.2)
              else bytesCmp g2.2

/-! ## Specification-side functions used to state the verdict
characterization -/

/-- Length of the longest common prefix of two byte sequences. -/
def commonPrefixLen : List Nat → List Nat → Nat
  | a :: as, b :: bs => if a = b then commonPrefixLen as bs + 1 else 0
  | _, _ => 0

/-- The verdict of the comparison loop over two well-behaved byte streams
`A`, `B`, entered with accumulated size `rs`: full equality gives `true` (with
the truncation error exactly when the total passes `maxSize`); otherwise the
loop answers `true` with the truncation error exactly when the streams agree
through the end of the size-`s` block in which the running total first
exceeds the limit, and `(false, nil)` in every other case. -/
def loopSpec (A B : List Nat) (s : Nat) (u : Bool) (maxSize rs : Int) : Bool × Option Err :=
  if A = B then
    (true, if u = true ∧ rs + (A.length : Int) > maxSize then some Err.maxReadSizeReached
           else none)
  else if u = true ∧ s * ((maxSize - rs).toNat / s + 1) ≤ commonPrefixLen A B then
    (true, some Err.maxReadSizeReached)
  else (false, none)

/-- `loopSpec` at the start of the loop. -/
def verdictSpec (A B : List Nat) (s : Nat) (u : Bool) (maxSize : Int) : Bool × Option Err :=
  loopSpec A B s u maxSize 0

/-! ## Common-prefix lemmas -/

theorem commonPrefixLen_le_left : ∀ (A B : List Nat), commonPrefixLen A B ≤ A.length := by
  intro A
  induction A with
  | nil => intro B; cases B <;> simp [commonPrefixLen]
  | cons a as ih =>
    intro B
    cases B with
    | nil => simp [commonPrefixLen]
    | cons b bs =>
      by_cases h : a = b <;> simp only [commonPrefixLen, h, if_true, if_false, List.length_cons]
      · have := ih bs; omega
      · simp [h]

theorem commonPrefixLen_le_right : ∀ (A B : List Nat), commonPrefixLen A B ≤ B.length := by
  intro A
  induction A with
  | nil => intro B; cases B <;> simp [commonPrefixLen]
  | cons a as ih =>
    intro B
    cases B with
    | nil => simp [commonPrefixLen]
    | cons b bs =>
      by_cases h : a = b <;> simp only [commonPrefixLen, h, if_true, if_false, List.length_cons]
      · have := ih bs; omega
      · simp [h]

theorem commonPrefixLen_self : ∀ (A : List Nat), commonPrefixLen A A = A.length := by
  intro A
  induction A with
  | nil => simp [commonPrefixLen]
  | cons a as ih => simp [commonPrefixLen, ih]

theorem take_eq_of_le_commonPrefixLen :
    ∀ (A B : List Nat) (m : Nat), m ≤ commonPrefixLen A B → A.take m = B.take m := by
  intro A
  induction A with
  | nil =>
    intro B m h
    cases B with
    | nil => rfl
    | cons b bs => simp [commonPrefixLen] at h; simp [h]
  | cons a as ih =>
    intro B m h
    cases B with
    | nil => simp [commonPrefixLen] at h; simp [h]
    | cons b bs =>
      by_cases hab : a = b
      · simp only [commonPrefixLen, hab, if_true] at h
        cases m with
        | zero => rfl
        | succ k => simp only [List.take_succ_cons, hab, ih bs k (by omega)]
      · simp [commonPrefixLen, hab] at h; simp [h]

theorem le_commonPrefixLen_of_take_eq :
    ∀ (A B : List Nat) (m : Nat), m ≤ A.length → m ≤ B.length → A.take m = B.take m →
      m ≤ commonPrefixLen A B := by
  intro A
  induction A with
  | nil => intro B m h _ _; simp at h; omega
  | cons a as ih =>
    intro B m hA hB ht
    cases B with
    | nil => simp at hB; omega
    | cons b bs =>
      cases m with
      | zero => omega
      | succ k =>
        simp only [List.take_succ_cons, List.cons.injEq] at ht
        simp only [commonPrefixLen, ht.1, if_true]
        have := ih bs k (by simpa using hA) (by simpa using hB) ht.2
        omega

theorem commonPrefixLen_le_of_getD_ne :
    ∀ (A B : List Nat) (k : Nat), A.getD k 0 ≠ B.getD k 0 → commonPrefixLen A B ≤ k := by
  intro A
  induction A with
  | nil => intro B k _; cases B <;> simp [commonPrefixLen]
  | cons a as ih =>
    intro B k h
    cases B with
    | nil => simp [commonPrefixLen]
    | cons b bs =>
      by_cases hab : a = b
      · cases k with
        | zero => simp [hab] at h
        | succ j =>
          simp only [commonPrefixLen, hab, if_true]
          have := ih bs j (by simpa using h)
          omega
      · simp [commonPrefixLen, hab]

theorem commonPrefixLen_decomp :
    ∀ (s : Nat) (A B : List Nat), s ≤ A.length → s ≤ B.length → A.take s = B.take s →
      commonPrefixLen A B = s + commonPrefixLen (A.drop s) (B.drop s) := by
  intro s
  induction s with
  | zero => intro A B _ _ _; simp
  | succ k ih =>
    intro A B hA hB ht
    cases A with
    | nil => simp at hA
    | cons a as =>
      cases B with
      | nil => simp at hB
      | cons b bs =>
        simp only [List.take_succ_cons, List.cons.injEq] at ht
        simp only [commonPrefixLen, ht.1, if_true, List.drop_succ_cons]
        have := ih as bs (by simpa using hA) (by simpa using hB) ht.2
        omega

theorem eq_iff_take_drop_eq (s : Nat) (A B : List Nat) :
    A = B ↔ (A.take s = B.take s ∧ A.drop s = B.drop s) := by
  constructor
  · rintro rfl; exact ⟨rfl, rfl⟩
  · rintro ⟨h1, h2⟩
    calc A = A.take s ++ A.drop s := (List.take_append_drop s A).symm
    _ = B.take s ++ B.drop s := by rw [h1, h2]
    _ = B := List.take_append_drop s B


/-! ## The verdict of the comparison loop over well-behaved byte streams -/

theorem loopSpec_drop (s : Nat) (h0s : 0 < s) (u : Bool) (L rs : Int) (A B : List Nat)
    (hm : s ⊓ A.length = s ⊓ B.length)
    (hw : A.take (s ⊓ A.length) = B.take (s ⊓ B.length))
    (hle : u = true → rs + (↑(s ⊓ A.length) : Int) ≤ L) :
    loopSpec (A.drop s) (B.drop s) s u L (rs + (↑(s ⊓ A.length) : Int))
      = loopSpec A B s u L rs := by
  by_cases hAB : A = B
  · subst hAB
    simp only [loopSpec, if_pos rfl, List.length_drop]
    have hiff : (u = true ∧ rs + (↑(s ⊓ A.length) : ℤ) + ↑(A.length - s) > L)
        ↔ (u = true ∧ rs + (↑A.length : ℤ) > L) :=
      ⟨fun ⟨h1, h2⟩ => ⟨h1, by omega⟩, fun ⟨h1, h2⟩ => ⟨h1, by omega⟩⟩
    rw [if_congr hiff rfl rfl]
    simp
  · have hms : s ⊓ A.length = s := by
      by_contra hns
      apply hAB
      have h1 : s ⊓ A.length = A.length := by omega
      have h2 : s ⊓ B.length = B.length := by omega
      rw [h1, List.take_of_length_le (le_refl _)] at hw
      rw [h2, List.take_of_length_le (le_refl _)] at hw
      exact hw
    have hms2 : s ⊓ B.length = s := by omega
    have hsA : s ≤ A.length := by omega
    have hsB : s ≤ B.length := by omega
    have hws : A.take s = B.take s := by rw [hms] at hw; rw [hms2] at hw; exact hw
    have hdne : A.drop s ≠ B.drop s := fun h => hAB ((eq_iff_take_drop_eq s A B).2 ⟨hws, h⟩)
    rw [hms] at hle ⊢
    cases u with
    | false => simp [loopSpec, hAB, hdne]
    | true =>
      have hrsL : rs + (s : Int) ≤ L := hle rfl
      have hsplit := commonPrefixLen_decomp s A B hsA hsB hws
      have hdiv : (L - rs).toNat / s = (L - (rs + (s : Int))).toNat / s + 1 := by
        have h1 : (L - rs).toNat = (L - (rs + (s : Int))).toNat + s := by omega
        rw [h1]
        exact Nat.add_div_right _ h0s
      have hmul : s * ((L - rs).toNat / s + 1)
          = s * ((L - (rs + (s : Int))).toNat / s + 1) + s := by rw [hdiv]; ring
      simp only [loopSpec]
      rw [if_neg hdne, if_neg hAB]
      apply if_congr _ rfl rfl
      rw [hsplit, hmul]
      constructor <;> rintro ⟨h1, h2⟩ <;> exact ⟨h1, by omega⟩

set_option maxHeartbeats 1000000 in
theorem loop_bytesRead_eq (s : Nat) (hs : 1 ≤ s) (u : Bool) (L : Int) :
    ∀ (fuel : Nat) (A B : List Nat) (rs : Int) (c : Cmp),
      A.length + B.length + 2 ≤ fuel →
      (u = true → rs ≤ L) →
      (compareReaderLoop bytesRead fuel c A B s u L rs false false).map Prod.fst
        = some (loopSpec A B s u L rs) := by
  intro fuel
  induction fuel with
  | zero => intro A B rs c h hu; omega
  | succ f ih =>
    intro A B rs c hfuel hu
    have h0s : 0 < s := hs
    have hc : ¬(u = true ∧ L < rs) := fun h => absurd (hu h.1) (by omega)
    have hT : ¬(s * ((L - rs).toNat / s + 1) ≤ 0) := by
      have : 0 < s * ((L - rs).toNat / s + 1) := Nat.mul_pos h0s (Nat.succ_pos _)
      omega
    have hsT : s ≤ s * ((L - rs).toNat / s + 1) := Nat.le_mul_of_pos_right s (Nat.succ_pos _)
    cases A with
    | nil =>
      cases B with
      | nil =>
        obtain ⟨f1, rfl⟩ : ∃ f1, f = f1 + 1 := ⟨f - 1, by simp at hfuel; omega⟩
        simp [compareReaderLoop, readPartial, readStep, bytesRead, classifyErr, loopSpec, hc]
      | cons b bs =>
        have hmin : 0 < s ⊓ (bs.length + 1) := by omega
        simp [compareReaderLoop, readPartial, readStep, bytesRead, classifyErr, loopSpec,
          commonPrefixLen, h0s, hmin.ne, hT]
    | cons a as =>
      cases B with
      | nil =>
        have hmin : 0 < s ⊓ (as.length + 1) := by omega
        simp [compareReaderLoop, readPartial, readStep, bytesRead, classifyErr, loopSpec,
          commonPrefixLen, h0s, h0s.ne', hmin.ne, hT]
      | cons b bs =>
        by_cases hlt : s ⊓ (as.length + 1) < s ⊓ (bs.length + 1)
        · -- stream 1 runs dry inside this block: lengths differ, verdict false
          have hAlen : as.length + 1 < s := by omega
          have hdrop : List.drop s (a :: as) = [] := by
            apply List.drop_eq_nil_of_le; simp; omega
          have hAB : ¬(a :: as = b :: bs) := by
            intro h
            have := congrArg List.length h
            simp at this
            omega
          have hple := commonPrefixLen_le_left (a :: as) (b :: bs)
          have hcpl : ¬(s * ((L - rs).toNat / s + 1) ≤ commonPrefixLen (a :: as) (b :: bs)) := by
            simp at hple; omega
          simp [compareReaderLoop, readPartial, readStep, bytesRead, classifyErr, loopSpec,
            h0s, hdrop, hlt, hlt.ne, hAB, hcpl]
        · by_cases hgt : s ⊓ (bs.length + 1) < s ⊓ (as.length + 1)
          · -- stream 2 runs dry inside this block
            have hBlen : bs.length + 1 < s := by omega
            have hdrop : List.drop s (b :: bs) = [] := by
              apply List.drop_eq_nil_of_le; simp; omega
            have hAB : ¬(a :: as = b :: bs) := by
              intro h
              have := congrArg List.length h
              simp at this
              omega
            have hple := commonPrefixLen_le_right (a :: as) (b :: bs)
            have hcpl : ¬(s * ((L - rs).toNat / s + 1) ≤ commonPrefixLen (a :: as) (b :: bs)) := by
              simp at hple; omega
            have hc1 : ¬(as.length + 1 < s ∧ (s < bs.length + 1 ∨ as.length < bs.length)) := by
              omega
            have hc2 : bs.length + 1 < s ∧ (s < as.length + 1 ∨ bs.length < as.length) := by
              omega
            simp [compareReaderLoop, readPartial, readStep, bytesRead, classifyErr, loopSpec,
              h0s, hdrop, hgt, hgt.ne', hAB, hcpl, hc1, hc2]
          · have heq : s ⊓ (as.length + 1) = s ⊓ (bs.length + 1) := by omega
            have hne : ¬(s ⊓ (as.length + 1) ≠ s ⊓ (bs.length + 1)) := by omega
            have e1 : s ⊓ (as.length + 1) ⊓ s = s ⊓ (as.length + 1) := by omega
            have e2 : s ⊓ (bs.length + 1) ⊓ s = s ⊓ (bs.length + 1) := by omega
            by_cases hw : List.take (s ⊓ (as.length + 1)) (a :: as)
                = List.take (s ⊓ (bs.length + 1)) (b :: bs)
            · by_cases hcond : u = true ∧ rs + (↑(s ⊓ (as.length + 1)) : ℤ) > L
              · -- the max-size check fires right after this block
                have hRHS : loopSpec (a :: as) (b :: bs) s u L rs
                    = (true, some Err.maxReadSizeReached) := by
                  by_cases hAB : (a :: as) = (b :: bs)
                  · have hcA : u = true ∧ rs + (↑(as.length + 1) : ℤ) > L :=
                      ⟨hcond.1, by have := hcond.2; omega⟩
                    simp only [loopSpec, if_pos hAB, List.length_cons]
                    rw [if_pos hcA]
                  · have hm1s : s ⊓ (as.length + 1) = s := by
                      by_contra hns
                      apply hAB
                      have h1 : s ⊓ (as.length + 1) = as.length + 1 := by omega
                      have h2 : s ⊓ (bs.length + 1) = bs.length + 1 := by omega
                      rw [h1, h2] at hw
                      rw [List.take_of_length_le (by simp)] at hw
                      rw [List.take_of_length_le (by simp)] at hw
                      exact hw
                    have hm2s : s ⊓ (bs.length + 1) = s := by omega
                    have hLrs : (L - rs).toNat < s := by have := hcond.2; omega
                    have hdiv0 : (L - rs).toNat / s = 0 := Nat.div_eq_of_lt hLrs
                    have hws : List.take s (a :: as) = List.take s (b :: bs) := by
                      rw [hm1s, hm2s] at hw; exact hw
                    have hple2 : s ≤ commonPrefixLen (a :: as) (b :: bs) :=
                      le_commonPrefixLen_of_take_eq _ _ s (by simp; omega) (by simp; omega) hws
                    have hTle : s * ((L - rs).toNat / s + 1)
                        ≤ commonPrefixLen (a :: as) (b :: bs) := by
                      rw [hdiv0]; simpa using hple2
                    simp only [loopSpec]
                    rw [if_neg hAB, if_pos ⟨hcond.1, hTle⟩]
                rw [hRHS]
                simp only [compareReaderLoop, readStep, bytesRead, classifyErr,
                  List.length_cons, List.length_take, List.take_take, e1, e2,
                  Bool.or_self, Bool.false_or, Bool.or_false, Bool.not_false,
                  Bool.false_eq_true, and_self, and_true, true_and,
                  if_true, if_false, hlt, hgt, hne, hw, hcond, ne_eq, not_true,
                  ite_true, ite_false, not_false_iff, Option.map_some, Option.map_some']
              · -- recurse into the next block
                have hf2 : (List.drop s (a :: as)).length + (List.drop s (b :: bs)).length + 2
                    ≤ f := by
                  simp only [List.length_drop, List.length_cons]
                  simp only [List.length_cons] at hfuel
                  omega
                have hu2 : u = true → rs + (↑(s ⊓ (as.length + 1)) : ℤ) ≤ L := by
                  intro h
                  by_contra hgt2
                  exact hcond ⟨h, by omega⟩
                simp only [compareReaderLoop, readStep, bytesRead, classifyErr,
                  List.length_cons, List.length_take, List.take_take, e1, e2,
                  Bool.or_self, Bool.false_or, Bool.or_false, Bool.not_false,
                  Bool.false_eq_true, and_self, and_true, true_and,
                  if_true, if_false, hlt, hgt, hne, hw, hcond, ne_eq, not_true,
                  ite_true, ite_false, not_false_iff, Option.map_some, Option.map_some']
                rw [ih _ _ _ _ hf2 hu2]
                exact congrArg some
                  (loopSpec_drop s h0s u L rs (a :: as) (b :: bs) heq hw hu2)
            · -- this block mismatches: verdict (false, nil)
              have hAB : ¬(a :: as = b :: bs) := by
                intro h
                apply hw
                have hlen : as.length = bs.length := by
                  have := congrArg List.length h; simpa using this
                rw [h, hlen]
              have hpm : commonPrefixLen (a :: as) (b :: bs) < s ⊓ (as.length + 1) := by
                by_contra hge
                apply hw
                have h1 : List.take (s ⊓ (as.length + 1)) (a :: as)
                    = List.take (s ⊓ (as.length + 1)) (b :: bs) :=
                  take_eq_of_le_commonPrefixLen _ _ _ (by omega)
                rw [h1, heq]
              have hcpl : ¬(s * ((L - rs).toNat / s + 1)
                  ≤ commonPrefixLen (a :: as) (b :: bs)) := by omega
              have hRHS : loopSpec (a :: as) (b :: bs) s u L rs = (false, none) := by
                simp only [loopSpec]
                rw [if_neg hAB, if_neg (fun h => hcpl h.2)]
              rw [hRHS]
              simp only [compareReaderLoop, readStep, bytesRead, classifyErr,
                List.length_cons, List.length_take, List.take_take, e1, e2,
                Bool.or_self, Bool.false_or, Bool.or_false, Bool.not_false,
                Bool.false_eq_true, and_self, and_true, true_and,
                if_true, if_false, hlt, hgt, hne, hw, ne_eq, not_true,
                ite_true, ite_false, not_false_iff, Option.map_some, Option.map_some']


/-! ## Characterization lifted to `compareReader` -/

/-- The effective limit when size tracking applies: an unset (zero) `MaxSize`
falls back to `defaultMaxSize`. -/
def effectiveMaxSize (ms : Int) : Int :=
  if ms = 0 then defaultMaxSize else ms

theorem loopSpec_false (A B : List Nat) (s : Nat) (L rs : Int) :
    loopSpec A B s false L rs = if A = B then (true, none) else (false, none) := by
  by_cases h : A = B <;> simp [loopSpec, h]

/-- `compareReader` over two plain byte streams, unlimited readers, with a
nonnegative configured maximum: total, and the verdict is `verdictSpec`. -/
theorem compareReader_bytesRead_eq (c : Cmp) (A B : List Nat) (ms : Int) (fuel : Nat)
    (hbuf : 2 ≤ c.buf.length) (hms : 0 ≤ ms) (hfuel : A.length + B.length + 2 ≤ fuel) :
    (compareReader bytesRead fuel c A B false false ms).map Prod.fst
      = some (verdictSpec A B (c.buf.length / 2) (decide (ms < maxInt64))
          (effectiveMaxSize ms)) := by
  have hs : 1 ≤ c.buf.length / 2 := by omega
  have hL : 1 ≤ effectiveMaxSize ms := by
    unfold effectiveMaxSize defaultMaxSize
    split <;> omega
  have hsz : ¬(c.buf.length / 2 < 1) := by omega
  have htk : (c.buf.take (c.buf.length / 2)).length
      = ((c.buf.take (2 * (c.buf.length / 2))).drop (c.buf.length / 2)).length := by
    simp only [List.length_take, List.length_drop]
    omega
  have hstep : compareReader bytesRead fuel c A B false false ms
      = compareReaderLoop bytesRead fuel c A B (c.buf.length / 2)
          (decide (ms < maxInt64)) (effectiveMaxSize ms) 0 false false := by
    by_cases hms0 : ms = 0
    · subst hms0
      simp [compareReader, effectiveMaxSize, maxInt64, defaultMaxSize, hsz, htk]
    · have hge1 : ¬(ms < 1) := by omega
      simp [compareReader, effectiveMaxSize, maxInt64, hms0, hge1, hsz, htk]
  rw [hstep]
  exact loop_bytesRead_eq (c.buf.length / 2) hs (decide (ms < maxInt64))
    (effectiveMaxSize ms) fuel A B 0 c hfuel (fun _ => by omega)

/-- With a bounded (`io.LimitedReader`) stream on either side the prelude is
skipped: `useMaxSize` stays false and the loop verdict is plain equality. -/
theorem compareReader_bytesRead_limited (c : Cmp) (A B : List Nat) (ok1 ok2 : Bool)
    (hok : (ok1 || ok2) = true) (ms : Int) (fuel : Nat)
    (hbuf : 2 ≤ c.buf.length) (hfuel : A.length + B.length + 2 ≤ fuel) :
    (compareReader bytesRead fuel c A B ok1 ok2 ms).map Prod.fst
      = some (if A = B then (true, none) else (false, none)) := by
  have hs : 1 ≤ c.buf.length / 2 := by omega
  have hsz : ¬(c.buf.length / 2 < 1) := by omega
  have htk : (c.buf.take (c.buf.length / 2)).length
      = ((c.buf.take (2 * (c.buf.length / 2))).drop (c.buf.length / 2)).length := by
    simp only [List.length_take, List.length_drop]
    omega
  have hstep : compareReader bytesRead fuel c A B ok1 ok2 ms
      = compareReaderLoop bytesRead fuel c A B (c.buf.length / 2)
          false ms 0 false false := by
    simp [compareReader, hok, hsz, htk]
  rw [hstep]
  rw [loop_bytesRead_eq (c.buf.length / 2) hs false ms fuel A B 0 c hfuel (by simp)]
  rw [loopSpec_false]


/-! ## Congruence: the verdict ignores the statistics state, and ignores
`maxSize`/`readSize` whenever `useMaxSize` is off -/

theorem readPartial_proj_congr {ρ : Type} (rd : ρ → Nat → (List Nat × Option Err) × ρ) :
    ∀ (fuel : Nat) (c cb : Cmp) (r : ρ) (win : List Nat) (n1 n2 : Nat),
      (readPartial rd fuel c r win n1 n2).map (fun x => (x.1, x.2.1))
        = (readPartial rd fuel cb r win n1 n2).map (fun x => (x.1, x.2.1)) := by
  intro fuel
  induction fuel with
  | zero => intros; rfl
  | succ f ih =>
    intro c cb r win n1 n2
    by_cases h : n1 < n2
    · rcases hr : rd r (n2 - n1) with ⟨⟨bs, er⟩, ra⟩
      simp only [readPartial, h, if_true, ite_true, readStep, hr]
      rcases er with _ | e
      · exact ih _ _ _ _ _ _
      · simp
    · simp [readPartial, h]

theorem compareReaderLoop_fst_congr {ρ : Type} (rd : ρ → Nat → (List Nat × Option Err) × ρ) :
    ∀ (fuel : Nat) (c cb : Cmp) (r1 r2 : ρ) (size : Nat) (u : Bool) (L Lb rs rsb : Int)
      (e1 e2 : Bool), (u = true → L = Lb ∧ rs = rsb) →
      (compareReaderLoop rd fuel c r1 r2 size u L rs e1 e2).map Prod.fst
        = (compareReaderLoop rd fuel cb r1 r2 size u Lb rsb e1 e2).map Prod.fst := by
  intro fuel
  induction fuel with
  | zero => intros; rfl
  | succ f ih =>
    intro c cb r1 r2 size u L Lb rs rsb e1 e2 hul
    by_cases he : (e1 || e2) = true
    · simp only [compareReaderLoop, he, if_true, ite_true]
      by_cases h12 : (!e1 || !e2) = true <;> simp [h12]
    · rcases h1 : rd r1 size with ⟨⟨bs1, er1⟩, r1a⟩
      rcases h2 : rd r2 size with ⟨⟨bs2, er2⟩, r2a⟩
      simp only [compareReaderLoop, he, if_false, ite_false, readStep, h1, h2,
        Bool.false_eq_true]
      rcases hc1 : classifyErr er1 with e | isE1
      · simp
      · rcases hc2 : classifyErr er2 with e | isE2
        · simp
        · have hfinish : ∀ (cA cB : Cmp) (r1F r2F : ρ) (eA eB : Bool) (n1 : Nat)
              (w1F : List Nat) (n2 : Nat) (w2F : List Nat),
              (Option.map Prod.fst (if n1 ≠ n2 then some ((false, none), cA)
                else if w1F.take n1 ≠ w2F.take n2 then some ((false, none), cA)
                else if u = true ∧ rs + (n1 : Int) > L then
                  some ((true, some Err.maxReadSizeReached), cA)
                else compareReaderLoop rd f cA r1F r2F size u L (rs + (n1 : Int)) eA eB))
              = (Option.map Prod.fst (if n1 ≠ n2 then some ((false, none), cB)
                else if w1F.take n1 ≠ w2F.take n2 then some ((false, none), cB)
                else if u = true ∧ rsb + (n1 : Int) > Lb then
                  some ((true, some Err.maxReadSizeReached), cB)
                else compareReaderLoop rd f cB r1F r2F size u Lb (rsb + (n1 : Int)) eA eB)) := by
            intro cA cB r1F r2F eA eB n1 w1F n2 w2F
            by_cases hnn : n1 ≠ n2
            · simp [hnn]
            · by_cases hwin : w1F.take n1 ≠ w2F.take n2
              · simp [hnn, hwin]
              · simp only [hnn, hwin, if_false, ite_false, not_false_iff]
                by_cases hu : u = true
                · obtain ⟨rfl, rfl⟩ := hul hu
                  by_cases hmax : u = true ∧ rs + (n1 : Int) > L
                  · simp [hmax]
                  · simp only [hmax, if_false, ite_false]
                    exact ih _ _ _ _ _ _ _ _ _ _ _ _ (fun _ => ⟨rfl, rfl⟩)
                · have hmax : ¬(u = true ∧ rs + (n1 : Int) > L) := fun h => hu h.1
                  have hmaxb : ¬(u = true ∧ rsb + (n1 : Int) > Lb) := fun h => hu h.1
                  simp only [hmax, hmaxb, if_false, ite_false]
                  exact ih _ _ _ _ _ _ _ _ _ _ _ _ (fun h => absurd h hu)
          by_cases hw12 : bs1.length < bs2.length
          · simp only [hw12, if_true, ite_true]
            have hproj := readPartial_proj_congr rd (f + 1)
              ((c.updateStats bs1.length).updateStats bs2.length)
              ((cb.updateStats bs1.length).updateStats bs2.length) r1a bs1
              bs1.length bs2.length
            rcases hrpa : readPartial rd (f + 1) ((c.updateStats bs1.length).updateStats
                bs2.length) r1a bs1 bs1.length bs2.length with _ | ⟨⟨n, w1a, ep⟩, r1b, cA⟩
            · rcases hrpb : readPartial rd (f + 1) ((cb.updateStats bs1.length).updateStats
                  bs2.length) r1a bs1 bs1.length bs2.length with _ | yb
              · rfl
              · rw [hrpa, hrpb] at hproj
                simp at hproj
            · rcases hrpb : readPartial rd (f + 1) ((cb.updateStats bs1.length).updateStats
                  bs2.length) r1a bs1 bs1.length bs2.length with _ | ⟨⟨nb, w1b, epb⟩, r1c, cB⟩
              · rw [hrpa, hrpb] at hproj
                simp at hproj
              · rw [hrpa, hrpb] at hproj
                simp only [Option.map_some', Option.some.injEq, Prod.mk.injEq] at hproj
                obtain ⟨⟨rfl, rfl, rfl⟩, rfl⟩ := hproj
                rcases hcp : classifyErr ep with e | pe
                · simp [hcp]
                · simp only [hcp]
                  exact hfinish _ _ _ _ _ _ _ _ _ _
          · by_cases hw21 : bs2.length < bs1.length
            · simp only [hw12, hw21, if_true, ite_true, if_false, ite_false]
              have hproj := readPartial_proj_congr rd (f + 1)
                ((c.updateStats bs1.length).updateStats bs2.length)
                ((cb.updateStats bs1.length).updateStats bs2.length) r2a bs2
                bs2.length bs1.length
              rcases hrpa : readPartial rd (f + 1) ((c.updateStats bs1.length).updateStats
                  bs2.length) r2a bs2 bs2.length bs1.length with _ | ⟨⟨n, w2a, ep⟩, r2b, cA⟩
              · rcases hrpb : readPartial rd (f + 1) ((cb.updateStats bs1.length).updateStats
                    bs2.length) r2a bs2 bs2.length bs1.length with _ | yb
                · rfl
                · rw [hrpa, hrpb] at hproj
                  simp at hproj
              · rcases hrpb : readPartial rd (f + 1) ((cb.updateStats bs1.length).updateStats
                    bs2.length) r2a bs2 bs2.length bs1.length with _ | ⟨⟨nb, w2b, epb⟩, r2c, cB⟩
                · rw [hrpa, hrpb] at hproj
                  simp at hproj
                · rw [hrpa, hrpb] at hproj
                  simp only [Option.map_some', Option.some.injEq, Prod.mk.injEq] at hproj
                  obtain ⟨⟨rfl, rfl, rfl⟩, rfl⟩ := hproj
                  rcases hcp : classifyErr ep with e | pe
                  · simp [hcp]
                  · simp only [hcp]
                    exact hfinish _ _ _ _ _ _ _ _ _ _
            · simp only [hw12, hw21, if_false, ite_false]
              exact hfinish _ _ _ _ _ _ _ _ _ _


theorem compareReader_fst_congr {ρ : Type} (rd : ρ → Nat → (List Nat × Option Err) × ρ)
    (fuel : Nat) (c cb : Cmp) (r1 r2 : ρ) (ok1 ok2 : Bool) (ms : Int)
    (hbuf : c.buf = cb.buf) :
    (compareReader rd fuel c r1 r2 ok1 ok2 ms).map Prod.fst
      = (compareReader rd fuel cb r1 r2 ok1 ok2 ms).map Prod.fst := by
  simp only [compareReader, hbuf]
  split_ifs <;>
    first
      | rfl
      | exact compareReaderLoop_fst_congr rd fuel c cb r1 r2 _ _ _ _ _ _ _ _
          (fun _ => ⟨rfl, rfl⟩)

theorem resetDebugging_buf (c : Cmp) : c.resetDebugging.buf = c.buf := by
  unfold Cmp.resetDebugging
  split <;> rfl

/-- A negative `maxSize` with unlimited readers is rejected up front. -/
theorem compareReader_neg_maxSize {ρ : Type} (rd : ρ → Nat → (List Nat × Option Err) × ρ)
    (fuel : Nat) (c : Cmp) (r1 r2 : ρ) (ms : Int) (hms : ms < 0) :
    compareReader rd fuel c r1 r2 false false ms
      = some ((false, some Err.nonPositiveMaxSize), c) := by
  have h0 : ¬(ms = 0) := by omega
  have h1 : ms < 1 := by omega
  simp [compareReader, h0, h1]

/-- `maxSize = 0` with unlimited readers behaves exactly like
`maxSize = defaultMaxSize`. -/
theorem compareReader_zero_eq_default {ρ : Type} (rd : ρ → Nat → (List Nat × Option Err) × ρ)
    (fuel : Nat) (c : Cmp) (r1 r2 : ρ) :
    compareReader rd fuel c r1 r2 false false 0
      = compareReader rd fuel c r1 r2 false false defaultMaxSize := by
  simp [compareReader, defaultMaxSize, maxInt64]


/-- Two comparator states that agree on everything except the debug flag and
the statistics counters. -/
def StatsEquiv (c cb : Cmp) : Prop :=
  c.opt.forceFileRead = cb.opt.forceFileRead ∧ c.opt.maxSize = cb.opt.maxSize ∧
    c.hashType = cb.hashType ∧ c.hashMatchCompare = cb.hashMatchCompare ∧
    c.hashTable = cb.hashTable ∧ c.buf = cb.buf

theorem statsEquiv_resetDebugging (c cb : Cmp) (h : StatsEquiv c cb) :
    StatsEquiv c.resetDebugging cb.resetDebugging := by
  obtain ⟨h1, h2, h3, h4, h5, h6⟩ := h
  unfold Cmp.resetDebugging
  split <;> split <;> exact ⟨h1, h2, h3, h4, h5, h6⟩

theorem getHash_statsEquiv (hf : List Nat → List Nat) (fs : FS) (path : String) (m : Int)
    (c cb : Cmp) (h : StatsEquiv c cb) :
    (c.getHash hf fs path m).1 = (cb.getHash hf fs path m).1 ∧
      StatsEquiv (c.getHash hf fs path m).2 (cb.getHash hf fs path m).2 := by
  obtain ⟨h1, h2, h3, h4, h5, h6⟩ := h
  unfold Cmp.getHash
  rw [h5]
  rcases hlk : lookupTable cb.hashTable path with _ | hsum
  · rcases hfs : lookupFS fs path with _ | fm
    · exact ⟨rfl, h1, h2, h3, h4, h5, h6⟩
    · refine ⟨rfl, h1, h2, h3, h4, ?_, h6⟩
      simp only [Cmp.newHash, h5]
  · exact ⟨rfl, h1, h2, h3, h4, h5, h6⟩

theorem CompareFile_fst_congr (fs : FS) (p1 p2 : String) (c cb : Cmp) (h : StatsEquiv c cb) :
    (c.CompareFile fs p1 p2).map Prod.fst = (cb.CompareFile fs p1 p2).map Prod.fst := by
  obtain ⟨hff, hms, hht, hmc, htab, hbuf⟩ := h
  unfold Cmp.CompareFile
  rw [hms, hff, hht]
  by_cases hneg : cb.opt.maxSize < 0
  · simp [hneg]
  · simp only [hneg, if_false, ite_false]
    rcases hf1 : lookupFS fs p1 with _ | info1
    · rfl
    · rcases hf2 : lookupFS fs p2 with _ | info2
      · rfl
      · by_cases hr1 : info1.regular = false
        · simp [hr1]
        · by_cases hr2 : info2.regular = false
          · simp [hr1, hr2]
          · by_cases hsame : cb.opt.forceFileRead = false ∧ info1.fileId = info2.fileId
            · simp [hr1, hr2, hsame]
            · by_cases hlen : (info1.content.length : Int) ≠ (info2.content.length : Int)
              · simp [hr1, hr2, hsame, hlen]
              · have hr1t : info1.regular = true := by revert hr1; cases info1.regular <;> simp
                have hr2t : info2.regular = true := by revert hr2; cases info2.regular <;> simp
                simp only [hr1t, hr2t, Bool.true_eq_false, hsame, hlen, if_false, ite_false,
                  if_true, ite_true, not_false_iff]
                rcases hhtv : cb.hashType with _ | hfn <;> simp only [hhtv]
                · exact compareReader_fst_congr bytesRead _ _ _ _ _ _ _ _
                    (by rw [resetDebugging_buf, resetDebugging_buf, hbuf])
                · generalize hM : (if cb.opt.maxSize = 0 then
                      if (info1.content.length : Int) = 0 then 1
                      else (info1.content.length : Int) else cb.opt.maxSize) = M
                  obtain ⟨hg1, hg1e⟩ := getHash_statsEquiv hfn fs p1 M c cb
                    ⟨hff, hms, hht, hmc, htab, hbuf⟩
                  rw [hg1]
                  obtain ⟨hg2, hg2e⟩ := getHash_statsEquiv hfn fs p2 M _ _ hg1e
                  rw [hg2, hmc]
                  by_cases he1 : ((cb.getHash hfn fs p1 M).1).2 ≠ none
                  · rw [if_pos he1, if_pos he1]; rfl
                  · simp only [he1, ite_false, if_false, not_false_iff]
                    by_cases he2 : (((cb.getHash hfn fs p1 M).2.getHash hfn fs p2 M).1).2 ≠ none
                    · rw [if_pos he2, if_pos he2]; rfl
                    · simp only [he2, ite_false, if_false, not_false_iff]
                      by_cases hd : ((cb.getHash hfn fs p1 M).1).1
                          ≠ (((cb.getHash hfn fs p1 M).2.getHash hfn fs p2 M).1).1
                      · rw [if_pos hd, if_pos hd]; rfl
                      · simp only [hd, ite_false, if_false, not_false_iff]
                        by_cases hcm : cb.hashMatchCompare = false
                        · rw [if_pos hcm, if_pos hcm]; rfl
                        · simp only [hcm, ite_false, if_false]
                          exact compareReader_fst_congr bytesRead _ _ _ _ _ _ _ _
                            (by rw [resetDebugging_buf, resetDebugging_buf, hg2e.2.2.2.2.2])


/-! ## Reconciliation (`readPartial`) over scripted readers -/

theorem readPartial_script_total :
    ∀ (sc : List (List Nat × Option Err)) (fuel : Nat) (c : Cmp) (win : List Nat)
      (n1 n2 : Nat), sc.length < fuel → n1 ≤ n2 →
      ∃ n w e r c2, readPartial scriptRead fuel c sc win n1 n2 = some ((n, w, e), r, c2)
        ∧ n1 ≤ n ∧ n ≤ n2 ∧ (e = none → n = n2) := by
  intro sc
  induction sc with
  | nil =>
    intro fuel c win n1 n2 hfuel hle
    obtain ⟨f, rfl⟩ : ∃ f, fuel = f + 1 := ⟨fuel - 1, by omega⟩
    by_cases h : n1 < n2
    · refine ⟨n1, win ++ [], some Err.eof, [], c.updateStats 0, ?_, le_refl n1, by omega, by simp⟩
      simp [readPartial, h, readStep, scriptRead]
    · refine ⟨n1, win, none, [], c, ?_, le_refl n1, by omega, fun _ => by omega⟩
      simp [readPartial, h]
  | cons hd rest ih =>
    intro fuel c win n1 n2 hfuel hle
    obtain ⟨f, rfl⟩ : ∃ f, fuel = f + 1 := ⟨fuel - 1, by omega⟩
    by_cases h : n1 < n2
    · rcases hd with ⟨bs, e0⟩
      have hdel : (bs.take (n2 - n1)).length ≤ n2 - n1 := by
        simp [List.length_take]
      rcases e0 with _ | err
      · have := ih f (c.updateStats (bs.take (n2 - n1)).length) (win ++ bs.take (n2 - n1))
          (n1 + (bs.take (n2 - n1)).length) n2 (by simpa using hfuel) (by omega)
        obtain ⟨n, w, e, r, c2, heq, hge, hle2, hnone⟩ := this
        refine ⟨n, w, e, r, c2, ?_, by omega, hle2, hnone⟩
        simpa [readPartial, h, readStep, scriptRead] using heq
      · refine ⟨n1 + (bs.take (n2 - n1)).length, win ++ bs.take (n2 - n1), some err, rest,
          c.updateStats (bs.take (n2 - n1)).length, ?_, by omega, by omega, by simp⟩
        simp [readPartial, h, readStep, scriptRead]
    · exact ⟨n1, win, none, (hd :: rest), c, by simp [readPartial, h], le_refl n1,
        by omega, fun _ => by omega⟩

theorem compareReaderLoop_script_reconcile (fuel : Nat) (c : Cmp) (b1 b2 : List Nat)
    (t1 t2 : List (List Nat × Option Err)) (s : Nat) (u : Bool) (L rs : Int)
    (n : Nat) (w1 : List Nat) (ep : Option Err) (r1b : List (List Nat × Option Err))
    (hlt : (b1.take s).length < (b2.take s).length)
    (hrp : ∀ c0 : Cmp, (readPartial scriptRead (fuel + 1) c0 t1 (b1.take s)
        (b1.take s).length (b2.take s).length).map (fun x => (x.1, x.2.1))
        = some ((n, w1, ep), r1b)) :
    (ep = some Err.eof → n ≠ (b2.take s).length →
        (compareReaderLoop scriptRead (fuel + 1) c ((b1, none) :: t1) ((b2, none) :: t2)
          s u L rs false false).map Prod.fst = some (false, none)) ∧
      (∀ k, ep = some (Err.ioOther k) →
        (compareReaderLoop scriptRead (fuel + 1) c ((b1, none) :: t1) ((b2, none) :: t2)
          s u L rs false false).map Prod.fst = some (false, some (Err.ioOther k))) := by
  have hmain : ∀ (P : Option (Bool × Option Err) → Prop),
      (∀ cX r1x, P ((match classifyErr ep with
        | Except.error e => some ((false, some e), cX)
        | Except.ok partEof =>
          if n ≠ (b2.take s).length then some ((false, none), cX)
          else if w1.take n ≠ (b2.take s).take (b2.take s).length then some ((false, none), cX)
          else
            if u = true ∧ rs + (n : Int) > L then some ((true, some Err.maxReadSizeReached), cX)
            else compareReaderLoop scriptRead fuel cX r1x t2 s u L (rs + (n : Int))
              (false || partEof) false).map Prod.fst)) →
      P ((compareReaderLoop scriptRead (fuel + 1) c ((b1, none) :: t1) ((b2, none) :: t2)
          s u L rs false false).map Prod.fst) := by
    intro P hP
    have hrp2 := hrp ((c.updateStats (b1.take s).length).updateStats (b2.take s).length)
    rcases hact : readPartial scriptRead (fuel + 1)
        ((c.updateStats (b1.take s).length).updateStats (b2.take s).length) t1 (b1.take s)
        (b1.take s).length (b2.take s).length with _ | ⟨⟨na, wa, ea⟩, ra, ca⟩
    · rw [hact] at hrp2
      simp at hrp2
    · rw [hact] at hrp2
      simp only [Option.map_some', Option.some.injEq, Prod.mk.injEq] at hrp2
      obtain ⟨⟨rfl, rfl, rfl⟩, rfl⟩ := hrp2
      have hgoal : (compareReaderLoop scriptRead (fuel + 1) c ((b1, none) :: t1)
          ((b2, none) :: t2) s u L rs false false)
          = (match classifyErr ea with
            | Except.error e => some ((false, some e), ca)
            | Except.ok partEof =>
              if na ≠ (b2.take s).length then some ((false, none), ca)
              else if wa.take na ≠ (b2.take s).take (b2.take s).length then
                some ((false, none), ca)
              else
                if u = true ∧ rs + (na : Int) > L then
                  some ((true, some Err.maxReadSizeReached), ca)
                else compareReaderLoop scriptRead fuel ca ra t2 s u L (rs + (na : Int))
                  (false || partEof) false) := by
        simp only [compareReaderLoop, readStep, scriptRead, Bool.or_self, Bool.false_eq_true,
          if_false, ite_false, classifyErr, hlt, if_true, ite_true, hact]
      rw [hgoal]
      exact hP ca ra
  constructor
  · intro hep hne
    subst hep
    have hne2 : ¬(n = s ⊓ b2.length) := by simpa [List.length_take] using hne
    apply hmain (fun z => z = some (false, none))
    intro cX r1x
    simp [classifyErr, hne2]
  · intro k hep
    subst hep
    apply hmain (fun z => z = some (false, some (Err.ioOther k)))
    intro cX r1x
    simp [classifyErr]


/-! ## The hash cache and the file-level orchestrator -/

/-- C6: on a cache hit `getHash` returns the stored pair verbatim, without
touching the filesystem and without changing the state; on a cache miss with
the file present it hashes the first `maxBytes` bytes, stores the digest with
the terminal error (end-of-input before `maxBytes` is not an error), keyed by
path. -/
theorem getHash_cache_spec (hf : List Nat → List Nat) (fs fsb : FS) (c : Cmp)
    (path : String) (m : Int) :
    (∀ hs, lookupTable c.hashTable path = some hs →
        c.getHash hf fs path m = ((hs.result, hs.err), c)) ∧
      (∀ hs, lookupTable c.hashTable path = some hs →
        c.getHash hf fs path m = c.getHash hf fsb path m) ∧
      (lookupTable c.hashTable path = none → ∀ fm, lookupFS fs path = some fm →
        c.getHash hf fs path m =
          ((hf (fm.content.take m.toNat),
            if 0 < m ∧ (fm.content.length : Int) < m then fm.readErr.map Err.ioOther
            else none),
           { c with hashTable := (path,
              ⟨hf (fm.content.take m.toNat),
               if 0 < m ∧ (fm.content.length : Int) < m then fm.readErr.map Err.ioOther
               else none⟩) :: c.hashTable })) := by
  refine ⟨?_, ?_, ?_⟩
  · intro hs h
    simp [Cmp.getHash, h]
  · intro hs h
    simp [Cmp.getHash, h]
  · intro hmiss fm hfile
    simp only [Cmp.getHash, hmiss, hfile, Cmp.newHash]
    by_cases hm0 : m ≤ 0
    · have hc : ¬(0 < m ∧ (fm.content.length : Int) < m) := by omega
      simp [copyN, hm0, hc]
    · by_cases hlen : m ≤ (fm.content.length : Int)
      · have hc : ¬(0 < m ∧ (fm.content.length : Int) < m) := by omega
        simp [copyN, hm0, hlen, hc]
      · have hc : 0 < m ∧ (fm.content.length : Int) < m := by omega
        rcases hre : fm.readErr with _ | k
        · simp [copyN, hm0, hlen, hre, hc]
        · simp [copyN, hm0, hlen, hre, hc]

/-- C8: once both files open as distinct regular files of equal size, the
per-call maximum is the configured value if nonzero, else the smaller file
size (else 1), and this same bound feeds both hash computations and the
byte-by-byte comparison. -/
theorem CompareFile_effective_maxSize (c : Cmp) (fs : FS) (p1 p2 : String)
    (info1 info2 : FileMeta) (hf : List Nat → List Nat)
    (hms : 0 ≤ c.opt.maxSize)
    (h1 : lookupFS fs p1 = some info1) (h2 : lookupFS fs p2 = some info2)
    (hr1 : info1.regular = true) (hr2 : info2.regular = true)
    (hid : c.opt.forceFileRead = true ∨ info1.fileId ≠ info2.fileId)
    (hlen : info1.content.length = info2.content.length)
    (hht : c.hashType = some hf) :
    c.CompareFile fs p1 p2 =
      (let M : Int := if c.opt.maxSize ≠ 0 then c.opt.maxSize
        else ((max 1 (min info1.content.length info2.content.length) : Nat) : Int)
       let g1 := c.getHash hf fs p1 M
       if g1.1.2 ≠ none then some ((false, g1.1.2), g1.2)
       else
         let g2 := g1.2.getHash hf fs p2 M
         if g2.1.2 ≠ none then some ((false, g2.1.2), g2.2)
         else if g1.1.1 ≠ g2.1.1 then some ((false, none), g2.2)
         else if c.hashMatchCompare = false then some ((true, none), g2.2)
         else compareReader bytesRead (info1.content.length + info2.content.length + 2)
           g2.2.resetDebugging info1.content info2.content false false M) := by
  have hMs : (if c.opt.maxSize = 0 then
        if (info1.content.length : Int) = 0 then 1 else (info1.content.length : Int)
      else c.opt.maxSize)
      = (if c.opt.maxSize ≠ 0 then c.opt.maxSize
        else ((max 1 (min info1.content.length info2.content.length) : Nat) : Int)) := by
    by_cases hz : c.opt.maxSize = 0
    · by_cases hl0 : info1.content.length = 0
      · simp [hz, hl0]
      · have hmin : min info1.content.length info2.content.length
            = info1.content.length := by omega
        have hmax : max 1 info1.content.length = info1.content.length := by omega
        simp [hz, hl0, hmin, hmax]
    · simp [hz]
  have hneg : ¬(c.opt.maxSize < 0) := by omega
  have hsame : ¬(c.opt.forceFileRead = false ∧ info1.fileId = info2.fileId) := by
    rintro ⟨ha, hb⟩
    rcases hid with h | h
    · rw [h] at ha; exact absurd ha (by simp)
    · exact h hb
  have hlen2 : ¬((info1.content.length : Int) ≠ (info2.content.length : Int)) := by
    simp [hlen]
  simp only [Cmp.CompareFile, h1, h2, hr1, hr2, hht, hneg, hsame, hlen2,
    Bool.true_eq_false, if_false, ite_false, not_false_iff, hMs]


/-! ## Helper forms at the `CompareReader` entry point -/

theorem CompareReader_bytes_verdict (c : Cmp) (A B : List Nat) (fuel : Nat)
    (hbuf : 2 ≤ c.buf.length) (hms : 0 ≤ c.opt.maxSize)
    (hfuel : A.length + B.length + 2 ≤ fuel) :
    (c.CompareReader bytesRead fuel A B false false).map Prod.fst
      = some (verdictSpec A B (c.buf.length / 2) (decide (c.opt.maxSize < maxInt64))
          (effectiveMaxSize c.opt.maxSize)) := by
  unfold Cmp.CompareReader
  have h := compareReader_bytesRead_eq c.resetDebugging A B c.opt.maxSize fuel
    (by rw [resetDebugging_buf]; exact hbuf) hms hfuel
  rw [resetDebugging_buf] at h
  exact h

theorem verdictSpec_err_cases (A B : List Nat) (s : Nat) (u : Bool) (L : Int) :
    (verdictSpec A B s u L).2 = none ∨ (verdictSpec A B s u L).2 = some Err.maxReadSizeReached := by
  unfold verdictSpec loopSpec
  split_ifs <;> simp

theorem NewMultiple_opt (buf : List Nat) (opts : Options) (h : Option (List Nat → List Nat))
    (cm : Bool) : (NewMultiple buf opts h cm).opt = opts := by
  simp only [NewMultiple]
  split <;> rfl

theorem NewMultiple_buf (buf : List Nat) (opts : Options) (h : Option (List Nat → List Nat))
    (cm : Bool) :
    (NewMultiple buf opts h cm).buf
      = if buf.length = 0 then List.replicate defaultBufSize 0 else buf := by
  simp only [NewMultiple]
  split <;> simp_all

theorem compareReader_insufficient {ρ : Type} (rd : ρ → Nat → (List Nat × Option Err) × ρ)
    (fuel : Nat) (c : Cmp) (r1 r2 : ρ) (ms : Int) (hms : 0 ≤ ms)
    (hbuf : c.buf.length = 1) :
    compareReader rd fuel c r1 r2 false false ms
      = some ((false, some Err.insufficientBufferSize), c) := by
  have hsz : c.buf.length / 2 < 1 := by omega
  by_cases hms0 : ms = 0
  · subst hms0
    simp [compareReader, hsz, defaultMaxSize]
  · have hge1 : ¬(ms < 1) := by omega
    simp [compareReader, hsz, hms0, hge1]

/-! ## Claim theorems -/

/-- C1 (counterexample): with `MaxSize = 3` and a 4-byte buffer, two streams of
identical length whose first 3 bytes agree compare as `(false, nil)`, while
changing only the byte beyond the limit turns the verdict into
`(true, max-size error)`: the boolean verdict is not determined within the
effective limit. -/
theorem CompareReader_within_limit_cex :
    ((New (List.replicate 4 0) ⟨false, false, 3⟩).CompareReader bytesRead 12
        [1, 1, 1, 2] [1, 1, 1, 3] false false).map Prod.fst = some (false, none)
      ∧ ((New (List.replicate 4 0) ⟨false, false, 3⟩).CompareReader bytesRead 12
        [1, 1, 1, 2] [1, 1, 1, 2] false false).map Prod.fst
          = some (true, some Err.maxReadSizeReached)
      ∧ List.take 3 [1, 1, 1, 2] = List.take 3 [1, 1, 1, 3]
      ∧ [1, 1, 1, 2].length = [1, 1, 1, 3].length := by
  refine ⟨?_, ?_, rfl, rfl⟩ <;> rfl

/-- C1 (amended): over plain byte streams with no bounded reader and a
nonnegative configured maximum, `CompareReader` is total and its verdict is
exactly `verdictSpec`: `true` iff the streams are identical, or size tracking
is active and they agree through the end of the half-buffer-sized block in
which the running total first exceeds the effective limit; the truncation
error accompanies exactly the over-limit outcomes. -/
theorem CompareReader_verdict_characterization (c : Cmp) (A B : List Nat) (fuel : Nat)
    (hbuf : 2 ≤ c.buf.length) (hms : 0 ≤ c.opt.maxSize)
    (hfuel : A.length + B.length + 2 ≤ fuel) :
    (c.CompareReader bytesRead fuel A B false false).map Prod.fst
      = some (verdictSpec A B (c.buf.length / 2) (decide (c.opt.maxSize < maxInt64))
          (effectiveMaxSize c.opt.maxSize)) :=
  CompareReader_bytes_verdict c A B fuel hbuf hms hfuel

/-- C1 (amended) witness. -/
theorem CompareReader_verdict_characterization_witness :
    ((New (List.replicate 4 0) ⟨false, false, 3⟩).CompareReader bytesRead 12
        [1, 1, 1, 2] [1, 1, 1, 3] false false).map Prod.fst
      = some (verdictSpec [1, 1, 1, 2] [1, 1, 1, 3] 2 true 3) := by
  have h := CompareReader_verdict_characterization (New (List.replicate 4 0) ⟨false, false, 3⟩)
    [1, 1, 1, 2] [1, 1, 1, 3] 12 (by decide) (by decide) (by decide)
  rw [h]
  rfl

/-- C2: with size tracking active (no bounded reader, finite maximum) and the
streams byte-for-byte equal through the end of the block at which the running
total first exceeds the effective maximum, the verdict is `equal = true`
together with the distinguished max-size-reached error. -/
theorem CompareReader_truncation_signal (c : Cmp) (A B : List Nat) (fuel T : Nat)
    (hbuf : 2 ≤ c.buf.length) (hms : 0 ≤ c.opt.maxSize)
    (hfin : c.opt.maxSize < maxInt64)
    (hfuel : A.length + B.length + 2 ≤ fuel)
    (hT : T = (c.buf.length / 2)
      * ((effectiveMaxSize c.opt.maxSize).toNat / (c.buf.length / 2) + 1))
    (hTA : T ≤ A.length) (hTB : T ≤ B.length) (hagree : A.take T = B.take T) :
    (c.CompareReader bytesRead fuel A B false false).map Prod.fst
      = some (true, some Err.maxReadSizeReached) := by
  rw [CompareReader_bytes_verdict c A B fuel hbuf hms hfuel]
  have hs : 0 < c.buf.length / 2 := by omega
  have hu : decide (c.opt.maxSize < maxInt64) = true := by simpa using hfin
  have hL1 : 1 ≤ effectiveMaxSize c.opt.maxSize := by
    unfold effectiveMaxSize defaultMaxSize
    split <;> omega
  have hdiv := Nat.lt_mul_div_succ (effectiveMaxSize c.opt.maxSize).toNat hs
  rw [← hT] at hdiv
  unfold verdictSpec loopSpec
  simp only [sub_zero]
  by_cases hAB : A = B
  · have hlen : effectiveMaxSize c.opt.maxSize < (A.length : Int) := by
      have : (effectiveMaxSize c.opt.maxSize).toNat < A.length := by omega
      omega
    rw [if_pos hAB, if_pos ⟨hu, by omega⟩]
  · have hcp : T ≤ commonPrefixLen A B :=
      le_commonPrefixLen_of_take_eq A B T hTA hTB hagree
    rw [if_neg hAB, if_pos ⟨hu, by rw [← hT]; omega⟩]

/-- C2 witness. -/
theorem CompareReader_truncation_signal_witness :
    ((New (List.replicate 4 0) ⟨false, false, 3⟩).CompareReader bytesRead 13
        [5, 5, 5, 5, 9] [5, 5, 5, 5, 7] false false).map Prod.fst
      = some (true, some Err.maxReadSizeReached) :=
  CompareReader_truncation_signal (New (List.replicate 4 0) ⟨false, false, 3⟩)
    [5, 5, 5, 5, 9] [5, 5, 5, 5, 7] 13 4 (by decide) (by decide) (by decide) (by decide)
    (by decide) (by decide) (by decide) (by decide)

/-- C5: a content mismatch at a byte position before the effective limit, and
likewise one stream ending strictly before the other below the limit, always
yield `(false, nil)` — the unequal verdict, never an error. -/
theorem CompareReader_mismatch_before_limit (c : Cmp) (A B : List Nat) (fuel : Nat)
    (hbuf : 2 ≤ c.buf.length) (hms : 0 ≤ c.opt.maxSize)
    (hfuel : A.length + B.length + 2 ≤ fuel) :
    (∀ k, k < A.length → k < B.length → (k : Int) < effectiveMaxSize c.opt.maxSize →
      A.getD k 0 ≠ B.getD k 0 →
      (c.CompareReader bytesRead fuel A B false false).map Prod.fst = some (false, none)) ∧
      (A.length < B.length → (A.length : Int) < effectiveMaxSize c.opt.maxSize →
        B.take A.length = A →
        (c.CompareReader bytesRead fuel A B false false).map Prod.fst
          = some (false, none)) := by
  have hs : 0 < c.buf.length / 2 := by omega
  have hL1 : 1 ≤ effectiveMaxSize c.opt.maxSize := by
    unfold effectiveMaxSize defaultMaxSize
    split <;> omega
  have hdiv := Nat.lt_mul_div_succ (effectiveMaxSize c.opt.maxSize).toNat hs
  constructor
  · intro k hkA hkB hkL hne
    rw [CompareReader_bytes_verdict c A B fuel hbuf hms hfuel]
    have hAB : A ≠ B := by
      intro hEq
      exact hne (by rw [hEq])
    have hcp : commonPrefixLen A B ≤ k := commonPrefixLen_le_of_getD_ne A B k hne
    have hkN : k < (effectiveMaxSize c.opt.maxSize).toNat := by omega
    unfold verdictSpec loopSpec
    simp only [sub_zero]
    rw [if_neg hAB, if_neg (fun hcontra => absurd hcontra.2 (by omega))]
  · intro hlen hlim hpre
    rw [CompareReader_bytes_verdict c A B fuel hbuf hms hfuel]
    have hAB : A ≠ B := by
      intro hEq
      rw [hEq] at hlen
      omega
    have hcp : commonPrefixLen A B ≤ A.length := commonPrefixLen_le_left A B
    have hAN : A.length < (effectiveMaxSize c.opt.maxSize).toNat := by omega
    unfold verdictSpec loopSpec
    simp only [sub_zero]
    rw [if_neg hAB, if_neg (fun hcontra => absurd hcontra.2 (by omega))]

/-- C5 witness. -/
theorem CompareReader_mismatch_before_limit_witness :
    ((New (List.replicate 4 0) ⟨false, false, 50⟩).CompareReader bytesRead 12
        [1, 2, 9] [1, 2, 3] false false).map Prod.fst = some (false, none)
      ∧ ((New (List.replicate 4 0) ⟨false, false, 50⟩).CompareReader bytesRead 12
        [1, 2] [1, 2, 3] false false).map Prod.fst = some (false, none) :=
  ⟨(CompareReader_mismatch_before_limit (New (List.replicate 4 0) ⟨false, false, 50⟩)
      [1, 2, 9] [1, 2, 3] 12 (by decide) (by decide) (by decide)).1 2 (by decide) (by decide)
      (by decide) (by decide),
   (CompareReader_mismatch_before_limit (New (List.replicate 4 0) ⟨false, false, 50⟩)
      [1, 2] [1, 2, 3] 12 (by decide) (by decide) (by decide)).2 (by decide) (by decide)
      (by decide)⟩


/-- C3 (counterexample): `MaxSize = 0` is not rejected as a configuration
error — the comparison proceeds (with the default ceiling) and here returns
`(true, nil)`, not the nonpositive-max-size error. -/
theorem CompareReader_zero_maxSize_cex :
    ((New (List.replicate 2 0) ⟨false, false, 0⟩).CompareReader bytesRead 2 ([] : List Nat)
        ([] : List Nat) false false).map Prod.fst = some (true, none)
      ∧ (some ((true : Bool), (none : Option Err)) : Option (Bool × Option Err))
          ≠ some (false, some Err.nonPositiveMaxSize) := ⟨rfl, by decide⟩

/-- C3 (amended): with no bounded reader, a negative maximum is the
`nonpositive max size` configuration error, while a zero (unset) maximum is
not an error: it behaves exactly as the fixed default ceiling of
10,000,000,000 bytes. -/
theorem compareReader_maxSize_config {ρ : Type} (rd : ρ → Nat → (List Nat × Option Err) × ρ)
    (fuel : Nat) (c : Cmp) (r1 r2 : ρ) (ms : Int) :
    (ms < 0 → compareReader rd fuel c r1 r2 false false ms
        = some ((false, some Err.nonPositiveMaxSize), c)) ∧
      compareReader rd fuel c r1 r2 false false 0
        = compareReader rd fuel c r1 r2 false false defaultMaxSize :=
  ⟨compareReader_neg_maxSize rd fuel c r1 r2 ms,
   compareReader_zero_eq_default rd fuel c r1 r2⟩

/-- C3 (amended) witness. -/
theorem compareReader_maxSize_config_witness :
    compareReader bytesRead 2 (New (List.replicate 2 0) ⟨false, false, 0⟩) ([] : List Nat)
        ([] : List Nat) false false (-3)
      = some ((false, some Err.nonPositiveMaxSize),
          New (List.replicate 2 0) ⟨false, false, 0⟩) :=
  (compareReader_maxSize_config bytesRead 2 (New (List.replicate 2 0) ⟨false, false, 0⟩)
    ([] : List Nat) ([] : List Nat) (-3)).1 (by decide)

/-- C4: with an `io.LimitedReader` on either side, size-limit enforcement is
skipped entirely: the configured maximum is ignored (the verdict is the same
for any `maxSize`, with no nonpositive-max-size check), and over byte streams
the outcome is plain content equality with no error at all. -/
theorem compareReader_limited_bypass :
    (∀ (ρ : Type) (rd : ρ → Nat → (List Nat × Option Err) × ρ) (fuel : Nat) (c : Cmp)
        (r1 r2 : ρ) (ok1 ok2 : Bool), (ok1 || ok2) = true → ∀ ms msb : Int,
        (compareReader rd fuel c r1 r2 ok1 ok2 ms).map Prod.fst
          = (compareReader rd fuel c r1 r2 ok1 ok2 msb).map Prod.fst) ∧
      (∀ (c : Cmp) (A B : List Nat) (ok1 ok2 : Bool) (ms : Int) (fuel : Nat),
        (ok1 || ok2) = true → 2 ≤ c.buf.length → A.length + B.length + 2 ≤ fuel →
        (compareReader bytesRead fuel c A B ok1 ok2 ms).map Prod.fst
          = some (if A = B then (true, none) else (false, none))) := by
  constructor
  · intro ρ rd fuel c r1 r2 ok1 ok2 hok ms msb
    simp only [compareReader, hok, Bool.true_eq_false, false_and, if_false, ite_false,
      eq_self_iff_true, if_true, ite_true]
    by_cases hsz : c.buf.length / 2 < 1
    · simp [hsz]
    · simp only [hsz, if_false, ite_false]
      split
      · rfl
      · exact compareReaderLoop_fst_congr rd fuel c c r1 r2 _ false ms msb 0 0 false false
          (fun hcontra => absurd hcontra (by decide))
  · intro c A B ok1 ok2 ms fuel hok hbuf hfuel
    exact compareReader_bytesRead_limited c A B ok1 ok2 hok ms fuel hbuf hfuel

/-- C4 witness. -/
theorem compareReader_limited_bypass_witness :
    ((compareReader bytesRead 10 (New (List.replicate 2 0) ⟨false, false, 1⟩) [1, 2, 3]
        [1, 2, 3] true false (-5)).map Prod.fst
      = (compareReader bytesRead 10 (New (List.replicate 2 0) ⟨false, false, 1⟩) [1, 2, 3]
        [1, 2, 3] true false 99).map Prod.fst)
    ∧ (compareReader bytesRead 10 (New (List.replicate 2 0) ⟨false, false, 1⟩) [1, 2, 3]
        [1, 2, 3] true false (-5)).map Prod.fst = some (true, none) := by
  constructor
  · exact compareReader_limited_bypass.1 _ bytesRead 10
      (New (List.replicate 2 0) ⟨false, false, 1⟩) [1, 2, 3] [1, 2, 3] true false rfl (-5) 99
  · have h := compareReader_limited_bypass.2 (New (List.replicate 2 0) ⟨false, false, 1⟩)
      [1, 2, 3] [1, 2, 3] true false (-5) 10 rfl (by decide) (by decide)
    rw [h]
    rfl

/-- C6 witness. -/
theorem getHash_cache_spec_witness :
    (Cmp.getHash ⟨⟨false, false, 0⟩, ⟨0, 0, 0, 0⟩, none, true,
        [("a", ⟨[7], some (Err.ioOther 3)⟩)], []⟩ (fun l => [l.sum]) [] "a" 5
      = (([7], some (Err.ioOther 3)), ⟨⟨false, false, 0⟩, ⟨0, 0, 0, 0⟩, none, true,
        [("a", ⟨[7], some (Err.ioOther 3)⟩)], []⟩))
    ∧ (Cmp.getHash ⟨⟨false, false, 0⟩, ⟨0, 0, 0, 0⟩, none, true, [], []⟩ (fun l => [l.sum])
        [("b", ⟨[1, 2, 3], true, 0, none⟩)] "b" 2
      = (([3], none), ⟨⟨false, false, 0⟩, ⟨0, 0, 0, 0⟩, none, true,
        [("b", ⟨[3], none⟩)], []⟩)) := by
  constructor
  · exact (getHash_cache_spec (fun l => [l.sum]) [] []
      ⟨⟨false, false, 0⟩, ⟨0, 0, 0, 0⟩, none, true,
        [("a", ⟨[7], some (Err.ioOther 3)⟩)], []⟩ "a" 5).1
      ⟨[7], some (Err.ioOther 3)⟩ rfl
  · have h := (getHash_cache_spec (fun l => [l.sum]) [("b", ⟨[1, 2, 3], true, 0, none⟩)] []
      ⟨⟨false, false, 0⟩, ⟨0, 0, 0, 0⟩, none, true, [], []⟩ "b" 2).2.2 rfl
      ⟨[1, 2, 3], true, 0, none⟩ rfl
    simpa using h

/-- C7: reconciliation — when one side reads fewer bytes, `readPartial`
re-reads it until the byte count matches the other side's or end-of-input
(returning without error only when matched); at the comparison level, if the
counts still differ after an end-of-input the verdict is `(false, nil)`, and
a real I/O error during reconciliation aborts immediately with that error. -/
theorem readPartial_reconciliation_spec :
    (∀ (sc : List (List Nat × Option Err)) (fuel : Nat) (c : Cmp) (win : List Nat)
        (n1 n2 : Nat), sc.length < fuel → n1 ≤ n2 →
        ∃ n w e r c2, readPartial scriptRead fuel c sc win n1 n2 = some ((n, w, e), r, c2)
          ∧ n1 ≤ n ∧ n ≤ n2 ∧ (e = none → n = n2)) ∧
      (∀ (fuel : Nat) (c : Cmp) (b1 b2 : List Nat)
        (t1 t2 : List (List Nat × Option Err)) (s : Nat) (u : Bool) (L rs : Int) (n : Nat)
        (w1 : List Nat) (ep : Option Err) (r1b : List (List Nat × Option Err)),
        (b1.take s).length < (b2.take s).length →
        (∀ c0 : Cmp, (readPartial scriptRead (fuel + 1) c0 t1 (b1.take s)
            (b1.take s).length (b2.take s).length).map (fun x => (x.1, x.2.1))
            = some ((n, w1, ep), r1b)) →
        (ep = some Err.eof → n ≠ (b2.take s).length →
          (compareReaderLoop scriptRead (fuel + 1) c ((b1, none) :: t1) ((b2, none) :: t2)
            s u L rs false false).map Prod.fst = some (false, none)) ∧
          (∀ k, ep = some (Err.ioOther k) →
            (compareReaderLoop scriptRead (fuel + 1) c ((b1, none) :: t1) ((b2, none) :: t2)
              s u L rs false false).map Prod.fst = some (false, some (Err.ioOther k)))) :=
  ⟨readPartial_script_total, fun fuel c b1 b2 t1 t2 s u L rs n w1 ep r1b hlt hrp =>
    compareReaderLoop_script_reconcile fuel c b1 b2 t1 t2 s u L rs n w1 ep r1b hlt hrp⟩

/-- C7 witness. -/
theorem readPartial_reconciliation_spec_witness :
    (∃ n w e r c2, readPartial scriptRead 3 (New (List.replicate 2 0) ⟨false, false, 0⟩)
        [([5], none), ([6], none)] [9] 1 3 = some ((n, w, e), r, c2)
          ∧ 1 ≤ n ∧ n ≤ 3 ∧ (e = none → n = 3))
    ∧ (compareReaderLoop scriptRead 3 (New (List.replicate 2 0) ⟨false, false, 0⟩)
        [([1], none)] [([1, 2], none)] 2 true 100 0 false false).map Prod.fst
      = some (false, none) := by
  constructor
  · exact readPartial_reconciliation_spec.1 [([5], none), ([6], none)] 3
      (New (List.replicate 2 0) ⟨false, false, 0⟩) [9] 1 3 (by decide) (by decide)
  · exact (readPartial_reconciliation_spec.2 2 (New (List.replicate 2 0) ⟨false, false, 0⟩)
      [1] [1, 2] [] [] 2 true 100 0 1 [1] (some Err.eof) [] (by decide) (fun c0 => rfl)).1
      rfl (by decide)

/-- C8 witness. -/
theorem CompareFile_effective_maxSize_witness :
    (Cmp.CompareFile
        (NewMultiple (List.replicate 2 0) ⟨false, false, 0⟩ (some (fun l => [l.sum])) true)
        [("a", ⟨[1, 2], true, 1, none⟩), ("b", ⟨[1, 2], true, 2, none⟩)]
        "a" "b").map Prod.fst = some (true, none) := by
  have h := CompareFile_effective_maxSize
    (NewMultiple (List.replicate 2 0) ⟨false, false, 0⟩ (some (fun l => [l.sum])) true)
    [("a", ⟨[1, 2], true, 1, none⟩), ("b", ⟨[1, 2], true, 2, none⟩)] "a" "b"
    ⟨[1, 2], true, 1, none⟩ ⟨[1, 2], true, 2, none⟩ (fun l => [l.sum])
    (by decide) rfl rfl rfl rfl (Or.inr (by decide)) rfl rfl
  rw [h]
  rfl

/-- C9: the boolean verdict and the error of `CompareReader` and of
`CompareFile` are identical whether `Options.Debug` is true or false, for any
incoming statistics counters: the read statistics never influence the
result. -/
theorem debug_flag_does_not_affect_verdict :
    (∀ (ρ : Type) (rd : ρ → Nat → (List Nat × Option Err) × ρ) (fuel : Nat) (r1 r2 : ρ)
        (ok1 ok2 : Bool) (ff : Bool) (ms : Int) (st1 st2 : Stats)
        (ht : Option (List Nat → List Nat)) (hmc : Bool) (tab : List (String × HashSum))
        (buf : List Nat),
        (Cmp.CompareReader ⟨⟨true, ff, ms⟩, st1, ht, hmc, tab, buf⟩ rd fuel r1 r2
            ok1 ok2).map Prod.fst
          = (Cmp.CompareReader ⟨⟨false, ff, ms⟩, st2, ht, hmc, tab, buf⟩ rd fuel r1 r2
            ok1 ok2).map Prod.fst) ∧
      (∀ (fs : FS) (p1 p2 : String) (ff : Bool) (ms : Int) (st1 st2 : Stats)
        (ht : Option (List Nat → List Nat)) (hmc : Bool) (tab : List (String × HashSum))
        (buf : List Nat),
        (Cmp.CompareFile ⟨⟨true, ff, ms⟩, st1, ht, hmc, tab, buf⟩ fs p1 p2).map Prod.fst
          = (Cmp.CompareFile ⟨⟨false, ff, ms⟩, st2, ht, hmc, tab, buf⟩ fs p1 p2).map
            Prod.fst) := by
  constructor
  · intro ρ rd fuel r1 r2 ok1 ok2 ff ms st1 st2 ht hmc tab buf
    unfold Cmp.CompareReader
    exact compareReader_fst_congr rd fuel _ _ r1 r2 ok1 ok2 _
      (by rw [resetDebugging_buf, resetDebugging_buf])
  · intro fs p1 p2 ff ms st1 st2 ht hmc tab buf
    exact CompareFile_fst_congr fs p1 p2 _ _ ⟨rfl, rfl, rfl, rfl, rfl, rfl⟩

/-- C10 (counterexample): with a 1-byte caller buffer but a negative
`MaxSize`, compare fails with the nonpositive-max-size error, not the
insufficient-buffer-size error, so "fails with insufficient-buffer-size
exactly when the buffer has length 1" is false as stated. -/
theorem NewMultiple_buffer_one_cex :
    ((NewMultiple [0] ⟨false, false, -1⟩ none true).CompareReader bytesRead 2 ([] : List Nat)
        ([] : List Nat) false false).map Prod.fst
      = some (false, some Err.nonPositiveMaxSize)
    ∧ (NewMultiple [0] ⟨false, false, -1⟩ none true).buf.length = 1 := ⟨rfl, rfl⟩

/-- C10 (amended): for a comparator built by the constructors with a
nonnegative configured maximum, compare over plain streams fails with the
insufficient-buffer-size error exactly when the caller supplied a buffer of
length 1 (nil or empty buffers are replaced by the 20000-byte default). -/
theorem NewMultiple_insufficient_buffer_iff (buf : List Nat) (opts : Options)
    (h : Option (List Nat → List Nat)) (cm : Bool) (A B : List Nat) (fuel : Nat)
    (hms : 0 ≤ opts.maxSize) (hfuel : A.length + B.length + 2 ≤ fuel) :
    (((NewMultiple buf opts h cm).CompareReader bytesRead fuel A B false false).map Prod.fst
        = some (false, some Err.insufficientBufferSize))
      ↔ buf.length = 1 := by
  have hopt := NewMultiple_opt buf opts h cm
  have hbufEq := NewMultiple_buf buf opts h cm
  by_cases hone : buf.length = 1
  · have hlen1 : (NewMultiple buf opts h cm).buf.length = 1 := by
      rw [hbufEq, if_neg (by omega)]
      exact hone
    unfold Cmp.CompareReader
    rw [compareReader_insufficient bytesRead fuel
      ((NewMultiple buf opts h cm).resetDebugging) A B
      ((NewMultiple buf opts h cm).opt.maxSize) (by rw [hopt]; exact hms)
      (by rw [resetDebugging_buf]; exact hlen1)]
    exact ⟨fun _ => hone, fun _ => rfl⟩
  · have hge2 : 2 ≤ (NewMultiple buf opts h cm).buf.length := by
      rw [hbufEq]
      by_cases hb0 : buf.length = 0
      · rw [if_pos hb0, List.length_replicate]
        unfold defaultBufSize
        omega
      · rw [if_neg hb0]
        omega
    have hv := CompareReader_bytes_verdict (NewMultiple buf opts h cm) A B fuel hge2
      (by rw [hopt]; exact hms) hfuel
    rw [hv]
    constructor
    · intro hcontra
      exfalso
      injection hcontra with hx
      rcases verdictSpec_err_cases A B ((NewMultiple buf opts h cm).buf.length / 2)
          (decide ((NewMultiple buf opts h cm).opt.maxSize < maxInt64))
          (effectiveMaxSize (NewMultiple buf opts h cm).opt.maxSize) with he | he
      · rw [hx] at he
        simp at he
      · rw [hx] at he
        simp at he
    · intro hcontra
      exact absurd hcontra hone

/-- C10 (amended) witness. -/
theorem NewMultiple_insufficient_buffer_iff_witness :
    (((NewMultiple [7] ⟨false, false, 5⟩ none true).CompareReader bytesRead 4 [1] [1]
        false false).map Prod.fst = some (false, some Err.insufficientBufferSize))
      ↔ [7].length = 1 :=
  NewMultiple_insufficient_buffer_iff [7] ⟨false, false, 5⟩ none true [1] [1] 4
    (by decide) (by decide)

end Equalfile
